import Mathlib

/-!
Formal model of the unitisation engine in `unitisation.py`
(`unitisation_process`), the core of the fund-accounting toolkit.

Embedding conventions:
* Python floats are modelled as exact rationals (`ℚ`).  The engine's own
  documentation describes amounts and unit counts as decimals compared with a
  small tolerance, and none of the properties below depend on binary
  floating-point artefacts.  The literal `1e-12` is modelled as `1 / 10 ^ 12`.
* `pd.read_csv` and the `to_datetime` reformatting are out of scope (the spec
  treats parsing as an external collaborator); the engine's input is modelled
  as an already-decoded table `TxTable`.  Dates are already-normalised
  `"YYYY-MM-DD"` strings, whose lexicographic order is date order.
  Column presence is modelled by the four `has*` flags: the access
  `tx["Date"]` on a frame without that column raises a `KeyError`
  (modelled by `PyError.keyError`), while the explicit required-column check
  raises a `ValueError` (modelled by `PyError.schemaError`).
* `pandas.DataFrame.sort_values` on the two keys `["Date", "Investor"]` is a
  stable sort by the lexicographic key; every stable sort computes the same
  list, and we embed it as `List.insertionSort` (stable), with the
  sortedness / permutation / stability facts proved below.
* The Python dict `investor_units` is modelled as an association list in
  insertion order with unique keys (`lookupUnits` / `setUnits`).
* `round(x, n)` is modelled as rounding to `n` decimal digits
  (`round2` / `round6`); the Python/IEEE tie-breaking difference is
  immaterial for every statement below.
* A raised `ValueError` / `KeyError` is modelled as `Except.error`; the
  message's data (offending date, investor, held vs requested units) is
  carried in the `PyError` constructors.
-/

namespace Unitisation

/-- Decidable equality of run results (needed to evaluate the engine on
concrete inputs inside proofs). -/
instance {ε α : Type} [DecidableEq ε] [DecidableEq α] : DecidableEq (Except ε α)
  | .error e, .error e' =>
    if h : e = e' then .isTrue (by rw [h])
    else .isFalse (by intro hh; cases hh; exact h rfl)
  | .error _, .ok _ => .isFalse (by intro h; cases h)
  | .ok _, .error _ => .isFalse (by intro h; cases h)
  | .ok a, .ok b =>
    if h : a = b then .isTrue (by rw [h])
    else .isFalse (by intro hh; cases hh; exact h rfl)

/-- One decoded row of the transactions file (columns `Date`, `Investor`,
`Type`, `Amount_Base`).  The Lean field for the CSV column `Type` is named
`TxType` because `Type` is reserved. -/
structure Tx where
  Date : String
  Investor : String
  TxType : String
  Amount_Base : ℚ
deriving DecidableEq

/-- One row of the emitted audit ledger (source lines 75-84). -/
structure LedgerEntry where
  Date : String
  Investor : String
  TxType : String
  Amount_Base : ℚ
  NAV_Per_Unit : ℚ
  Units_Change : ℚ
  Investor_Units_After : ℚ
  Total_Units_After : ℚ
deriving DecidableEq

/-- The one-row `totals` frame (source lines 94-98). -/
structure Totals where
  Opening_Units : ℚ
  Opening_NAV_Per_Unit : ℚ
  Closing_Units : ℚ
deriving DecidableEq

/-- The triple returned by `unitisation_process`: ledger, investor summary
(sorted by investor), totals. -/
structure Output where
  ledger : List LedgerEntry
  investor_summary : List (String × ℚ)
  totals : Totals
deriving DecidableEq

/-- The errors `unitisation_process` can raise.  All are `ValueError`s in the
source except `keyError`, which models the pandas `KeyError` raised by
`tx["Date"]` when the `Date` column is absent (source line 21, before the
required-column validation of lines 24-27). -/
inductive PyError where
  | keyError (col : String)
  | schemaError (missing : List String)
  | invalidKind
  | missingQuote (date : String)
  | invalidQuote (date : String)
  | insufficientBalance (investor date : String) (held requested : ℚ)
deriving DecidableEq

/-- The tolerance `1e-12` of the redemption check (source line 66). -/
def tol : ℚ := 1 / 10 ^ 12

/-- Normalisation of the `Type` column: `str.strip().str.lower()`
(source line 30).  Whitespace stripping and ASCII lower-casing are written
out over the character list (the kind values of this system are ASCII). -/
def normKind (s : String) : String :=
  ⟨((s.data.dropWhile Char.isWhitespace).reverse.dropWhile
      Char.isWhitespace).reverse.map Char.toLower⟩

/-- The canonical processing order of source line 35:
`sort_values(["Date", "Investor"])`, i.e. date ascending then investor
ascending (dates are normalised `YYYY-MM-DD` strings, so string order is
date order). -/
def leTx (a b : Tx) : Prop :=
  a.Date < b.Date ∨ (a.Date = b.Date ∧ a.Investor ≤ b.Investor)

instance : DecidableRel leTx := fun a b =>
  decidable_of_iff
    (a.Date.toList < b.Date.toList ∨ (a.Date = b.Date ∧ a.Investor.toList ≤ b.Investor.toList))
    (by unfold leTx
        rw [String.lt_iff_toList_lt, String.le_iff_toList_le])

instance : IsTotal Tx leTx := by
  constructor
  intro a b
  rcases lt_trichotomy a.Date b.Date with h | h | h
  · exact Or.inl (Or.inl h)
  · rcases le_total a.Investor b.Investor with h' | h'
    · exact Or.inl (Or.inr ⟨h, h'⟩)
    · exact Or.inr (Or.inr ⟨h.symm, h'⟩)
  · exact Or.inr (Or.inl h)

instance : IsTrans Tx leTx := by
  constructor
  intro a b c hab hbc
  rcases hab with h | ⟨h, h'⟩
  · rcases hbc with g | ⟨g, _⟩
    · exact Or.inl (h.trans g)
    · exact Or.inl (g ▸ h)
  · rcases hbc with g | ⟨g, g'⟩
    · exact Or.inl (h ▸ g)
    · exact Or.inr ⟨h.trans g, h'.trans g'⟩

/-- Order on summary rows: by investor identifier
(`sort_values("Investor")`, source line 91). -/
def leNm (a b : String × ℚ) : Prop := a.1 ≤ b.1

instance : DecidableRel leNm := fun a b =>
  decidable_of_iff (a.1.toList ≤ b.1.toList)
    (by unfold leNm
        rw [String.le_iff_toList_le])

instance : IsTotal (String × ℚ) leNm := ⟨fun a b => le_total a.1 b.1⟩

instance : IsTrans (String × ℚ) leNm := ⟨fun _ _ _ h g => le_trans h g⟩

/-- The stable sort of the transactions (source line 35).  `sort_values` with
two keys is a stable sort by the lexicographic key; `insertionSort` is such a
stable sort. -/
def sortTx (l : List Tx) : List Tx := l.insertionSort leTx

/-- The sort of the investor summary by investor name (source line 91). -/
def sortSummary (l : List (String × ℚ)) : List (String × ℚ) :=
  l.insertionSort leNm

/-- Dict membership / value lookup in `investor_units`
(first — and, keys being unique, only — binding of the key). -/
def lookupUnits : List (String × ℚ) → String → Option ℚ
  | [], _ => none
  | (k', v) :: t, k => if k' = k then some v else lookupUnits t k

/-- Dict value update `investor_units[k] = v` for a key already present:
replaces the (unique) binding of `k`, keeping insertion order. -/
def setUnits : List (String × ℚ) → String → ℚ → List (String × ℚ)
  | [], _, _ => []
  | (k', v') :: t, k, v => if k' = k then (k, v) :: t else (k', v') :: setUnits t k v

/-- Rounding to the nearest integer (`Rat.floor` keeps this computation
kernel-reducible).  Python's `round` breaks exact halves to the even
neighbour; no quantity rounded in this development sits on an exact half. -/
def roundQ (q : ℚ) : ℤ := Rat.floor (q + 1 / 2)

/-- Rounding to 2 decimal places, `round(x, 2)` (ledger `Amount_Base`). -/
def round2 (q : ℚ) : ℚ := (roundQ (q * 100) : ℤ) / 100

/-- Rounding to 6 decimal places, `round(x, 6)` (all unit columns). -/
def round6 (q : ℚ) : ℚ := (roundQ (q * 1000000) : ℤ) / 1000000

/-- The mutable state threaded through the processing loop of source
lines 37-84: the `investor_units` dict, the running `total_units`, and the
ledger `rows` accumulated so far. -/
structure EngState where
  investor_units : List (String × ℚ)
  total_units : ℚ
  rows : List LedgerEntry
deriving DecidableEq

/-- The state at loop entry (source lines 37-40). -/
def initState (opening_units : ℚ) : EngState :=
  { investor_units := [], total_units := opening_units, rows := [] }

/-- The ledger row appended for one processed transaction
(source lines 75-84). -/
def mkEntry (r : Tx) (navpu signed_units inv_after total_after : ℚ) : LedgerEntry :=
  { Date := r.Date
    Investor := r.Investor
    TxType := if r.TxType = "subscription" then "Subscription" else "Redemption"
    Amount_Base := round2 r.Amount_Base
    NAV_Per_Unit := round6 navpu
    Units_Change := round6 signed_units
    Investor_Units_After := round6 inv_after
    Total_Units_After := round6 total_after }

/-- Lazy creation of an investor's balance at `0.0` on first sight
(source lines 57-58). -/
def ensureUnits (units : List (String × ℚ)) (inv : String) : List (String × ℚ) :=
  match lookupUnits units inv with
  | none => units ++ [(inv, 0)]
  | some _ => units

/-- The current balance `investor_units[investor]` (the default `0` is never
reached once the key has been ensured). -/
def balOf (units : List (String × ℚ)) (inv : String) : ℚ :=
  (lookupUnits units inv).getD 0

/-- The state update common to both branches of the loop body
(source lines 60-63 with `signed_units = +units_delta`, lines 71-73 with
`signed_units = -units_delta`), together with the appended ledger row. -/
def applyDelta (st : EngState) (r : Tx) (navpu signed_units : ℚ) : EngState :=
  let units0 := ensureUnits st.investor_units r.Investor
  let bal' := balOf units0 r.Investor + signed_units
  let total' := st.total_units + signed_units
  { investor_units := setUnits units0 r.Investor bal'
    total_units := total'
    rows := st.rows ++ [mkEntry r navpu signed_units bal' total'] }

/-- One iteration of the processing loop (source lines 42-84) on an
already-normalised transaction: NAV lookup (line 48) and positivity check
(line 52), units delta (line 55), lazy creation of the investor's balance
(lines 57-58), then the subscription branch (lines 60-63) or the redemption
branch with its tolerance check (lines 64-73), and the appended ledger row
(lines 75-84). -/
def stepTx (nav : String → Option ℚ) (st : EngState) (r : Tx) :
    Except PyError EngState :=
  match nav r.Date with
  | none => .error (.missingQuote r.Date)
  | some navpu =>
    if navpu ≤ 0 then .error (.invalidQuote r.Date)
    else
      if r.TxType = "subscription" then
        .ok (applyDelta st r navpu (r.Amount_Base / navpu))
      else
        if balOf (ensureUnits st.investor_units r.Investor) r.Investor + tol
            < r.Amount_Base / navpu then
          .error (.insufficientBalance r.Investor r.Date
            (balOf (ensureUnits st.investor_units r.Investor) r.Investor)
            (r.Amount_Base / navpu))
        else .ok (applyDelta st r navpu (-(r.Amount_Base / navpu)))

/-- The processing loop folded over the (sorted) transaction list; the first
raised error aborts the whole run. -/
def runTx (nav : String → Option ℚ) : EngState → List Tx → Except PyError EngState
  | st, [] => .ok st
  | st, r :: rs =>
    match stepTx nav st r with
    | .error e => .error e
    | .ok st' => runTx nav st' rs

/-- Normalisation of the whole `Type` column (source line 30). -/
def normalizeRows (rows : List Tx) : List Tx :=
  rows.map fun r => { r with TxType := normKind r.TxType }

/-- The whole-batch kind validation
`set(tx["Type"]).issubset({"subscription", "redemption"})`
(source lines 31-32), applied after normalisation. -/
def kindsValid (rows : List Tx) : Bool :=
  rows.all fun r => r.TxType = "subscription" ∨ r.TxType = "redemption"

/-- The engine on a schema-valid table (source lines 29-100): normalise and
validate the kinds, sort canonically, fold the loop from the opening state,
then assemble ledger, investor summary (sorted by investor) and totals
(rounded for display). -/
def processTx (opening_units opening_nav_per_unit : ℚ) (rows : List Tx)
    (nav : String → Option ℚ) : Except PyError Output :=
  let rows1 := normalizeRows rows
  if kindsValid rows1 then
    match runTx nav (initState opening_units) (sortTx rows1) with
    | .error e => .error e
    | .ok st =>
      .ok { ledger := st.rows
            investor_summary := sortSummary st.investor_units
            totals :=
              { Opening_Units := round6 opening_units
                Opening_NAV_Per_Unit := round6 opening_nav_per_unit
                Closing_Units := round6 st.total_units } }
  else .error .invalidKind

/-- The decoded transactions file: which of the four required columns are
present, and the row data (only consumed when all columns are present; the
engine errors out before the loop otherwise). -/
structure TxTable where
  hasDate : Bool
  hasInvestor : Bool
  hasType : Bool
  hasAmount : Bool
  rows : List Tx

/-- A table with all four required columns present. -/
def mkTable (rows : List Tx) : TxTable :=
  { hasDate := true, hasInvestor := true, hasType := true, hasAmount := true
    rows := rows }

/-- The set difference `required - set(tx.columns)` of source line 25, as a
list in the fixed order of the required columns. -/
def missingCols (t : TxTable) : List String :=
  (if t.hasDate then [] else ["Date"]) ++
  (if t.hasInvestor then [] else ["Investor"]) ++
  (if t.hasType then [] else ["Type"]) ++
  (if t.hasAmount then [] else ["Amount_Base"])

/-- `unitisation_process` (source lines 5-100).  Source line 21 normalises the
`Date` column before anything else, so a table without that column fails with
the pandas `KeyError` there; only then does the required-column validation of
lines 24-27 run; the validated table is then processed by `processTx`. -/
def unitisation_process (opening_units opening_nav_per_unit : ℚ)
    (t : TxTable) (nav : String → Option ℚ) : Except PyError Output :=
  if ¬ t.hasDate then .error (.keyError "Date")
  else if missingCols t ≠ [] then .error (.schemaError (missingCols t))
  else processTx opening_units opening_nav_per_unit t.rows nav

/-- The units delta `amount / navpu` of a transaction (source line 55), as a
function of the NAV table (`0` default never used on successful runs). -/
def deltaOf (nav : String → Option ℚ) (r : Tx) : ℚ :=
  r.Amount_Base / ((nav r.Date).getD 0)

/-- Sum of the unit deltas of all subscription transactions of a list
(kinds compared after normalisation). -/
def subSum (nav : String → Option ℚ) (rows : List Tx) : ℚ :=
  ((rows.filter fun r => normKind r.TxType = "subscription").map (deltaOf nav)).sum

/-- Sum of the unit deltas of all redemption transactions of a list
(kinds compared after normalisation). -/
def redSum (nav : String → Option ℚ) (rows : List Tx) : ℚ :=
  ((rows.filter fun r => normKind r.TxType = "redemption").map (deltaOf nav)).sum

/-- Sum of the unit deltas of the subscriptions of an already-normalised
list (as threaded through the processing loop). -/
def subDeltaSum (nav : String → Option ℚ) (l : List Tx) : ℚ :=
  ((l.filter fun r => r.TxType = "subscription").map (deltaOf nav)).sum

/-- Sum of the unit deltas of the redemptions of an already-normalised
list (as threaded through the processing loop). -/
def redDeltaSum (nav : String → Option ℚ) (l : List Tx) : ℚ :=
  ((l.filter fun r => r.TxType = "redemption").map (deltaOf nav)).sum

/-- Sum of all balances of the `investor_units` dict. -/
def sumVals (units : List (String × ℚ)) : ℚ := (units.map Prod.snd).sum

/-- The sort key of source line 35. -/
def txKey (r : Tx) : String × String := (r.Date, r.Investor)

/-! ### Association-list lemmas for the `investor_units` dict -/

theorem tol_pos : 0 < tol := by norm_num [tol]

theorem lookupUnits_cons_self {k : String} {v : ℚ} {t : List (String × ℚ)} :
    lookupUnits ((k, v) :: t) k = some v := by
  simp [lookupUnits]

theorem lookupUnits_cons_ne {k' k : String} {v' : ℚ} {t : List (String × ℚ)}
    (h : ¬ k' = k) : lookupUnits ((k', v') :: t) k = lookupUnits t k := by
  simp only [lookupUnits]
  rw [if_neg h]

theorem setUnits_cons_self {k : String} {v' v : ℚ} {t : List (String × ℚ)} :
    setUnits ((k, v') :: t) k v = (k, v) :: t := by
  simp [setUnits]

theorem setUnits_cons_ne {k' k : String} {v' v : ℚ} {t : List (String × ℚ)}
    (h : ¬ k' = k) : setUnits ((k', v') :: t) k v = (k', v') :: setUnits t k v := by
  simp only [setUnits]
  rw [if_neg h]

theorem lookupUnits_eq_none {l : List (String × ℚ)} {k : String} :
    lookupUnits l k = none ↔ k ∉ l.map Prod.fst := by
  induction l with
  | nil => simp [lookupUnits]
  | cons p t ih =>
    obtain ⟨k', v⟩ := p
    by_cases h : k' = k
    · subst h
      rw [lookupUnits_cons_self]
      simp
    · rw [lookupUnits_cons_ne h, ih]
      simp only [List.map_cons, List.mem_cons]
      constructor
      · intro hk hor
        rcases hor with rfl | hm
        · exact h rfl
        · exact hk hm
      · intro hk hm
        exact hk (Or.inr hm)

theorem lookupUnits_mem {l : List (String × ℚ)} {k : String} {v : ℚ}
    (h : lookupUnits l k = some v) : (k, v) ∈ l := by
  induction l with
  | nil => simp [lookupUnits] at h
  | cons p t ih =>
    obtain ⟨k', v'⟩ := p
    by_cases hk : k' = k
    · subst hk
      rw [lookupUnits_cons_self] at h
      injection h with h
      subst h
      exact List.mem_cons_self _ _
    · rw [lookupUnits_cons_ne hk] at h
      exact List.mem_cons_of_mem _ (ih h)

theorem lookupUnits_append_self {l : List (String × ℚ)} {k : String}
    (h : lookupUnits l k = none) : lookupUnits (l ++ [(k, 0)]) k = some 0 := by
  induction l with
  | nil => simpa using lookupUnits_cons_self
  | cons p t ih =>
    obtain ⟨k', v'⟩ := p
    by_cases hk : k' = k
    · subst hk
      rw [lookupUnits_cons_self] at h
      cases h
    · rw [lookupUnits_cons_ne hk] at h
      rw [List.cons_append, lookupUnits_cons_ne hk]
      exact ih h

theorem ensureUnits_of_some {units : List (String × ℚ)} {inv : String} {v : ℚ}
    (h : lookupUnits units inv = some v) : ensureUnits units inv = units := by
  unfold ensureUnits
  rw [h]

theorem ensureUnits_of_none {units : List (String × ℚ)} {inv : String}
    (h : lookupUnits units inv = none) :
    ensureUnits units inv = units ++ [(inv, 0)] := by
  unfold ensureUnits
  rw [h]

theorem lookupUnits_ensure (units : List (String × ℚ)) (inv : String) :
    lookupUnits (ensureUnits units inv) inv = some (balOf units inv) := by
  unfold balOf
  cases h : lookupUnits units inv with
  | none => rw [ensureUnits_of_none h, lookupUnits_append_self h]; rfl
  | some v => rw [ensureUnits_of_some h, h]; rfl

theorem balOf_ensure (units : List (String × ℚ)) (inv : String) :
    balOf (ensureUnits units inv) inv = balOf units inv := by
  unfold balOf
  rw [lookupUnits_ensure]
  rfl

theorem ensureUnits_mem {units : List (String × ℚ)} {inv : String}
    {p : String × ℚ} (h : p ∈ ensureUnits units inv) : p ∈ units ∨ p = (inv, 0) := by
  unfold ensureUnits at h
  cases hl : lookupUnits units inv with
  | none => rw [hl] at h; simpa using h
  | some v => rw [hl] at h; exact Or.inl h

theorem ensureUnits_keys_nodup {units : List (String × ℚ)} {inv : String}
    (h : (units.map Prod.fst).Nodup) :
    ((ensureUnits units inv).map Prod.fst).Nodup := by
  cases hl : lookupUnits units inv with
  | none =>
    rw [ensureUnits_of_none hl]
    have hmem : inv ∉ units.map Prod.fst := lookupUnits_eq_none.mp hl
    simp [List.nodup_append, h, hmem]
  | some v => rw [ensureUnits_of_some hl]; exact h

theorem sumVals_ensure (units : List (String × ℚ)) (inv : String) :
    sumVals (ensureUnits units inv) = sumVals units := by
  cases hl : lookupUnits units inv with
  | none => rw [ensureUnits_of_none hl]; simp [sumVals]
  | some v => rw [ensureUnits_of_some hl]

theorem setUnits_keys (l : List (String × ℚ)) (k : String) (v : ℚ) :
    (setUnits l k v).map Prod.fst = l.map Prod.fst := by
  induction l with
  | nil => rfl
  | cons p t ih =>
    obtain ⟨k', v'⟩ := p
    by_cases hk : k' = k
    · subst hk
      rw [setUnits_cons_self]
      simp
    · rw [setUnits_cons_ne hk]
      simp [ih]

theorem setUnits_mem {l : List (String × ℚ)} {k : String} {v : ℚ}
    {p : String × ℚ} (h : p ∈ setUnits l k v) : p ∈ l ∨ p = (k, v) := by
  induction l with
  | nil => simp [setUnits] at h
  | cons q t ih =>
    obtain ⟨k', v'⟩ := q
    by_cases hk : k' = k
    · subst hk
      rw [setUnits_cons_self] at h
      rcases List.mem_cons.mp h with h | h
      · exact Or.inr h
      · exact Or.inl (List.mem_cons_of_mem _ h)
    · rw [setUnits_cons_ne hk] at h
      rcases List.mem_cons.mp h with h | h
      · exact Or.inl (h ▸ List.mem_cons_self _ _)
      · rcases ih h with h' | h'
        · exact Or.inl (List.mem_cons_of_mem _ h')
        · exact Or.inr h'

theorem sumVals_setUnits {l : List (String × ℚ)} {k : String} {w : ℚ} (v : ℚ)
    (hnd : (l.map Prod.fst).Nodup) (h : lookupUnits l k = some w) :
    sumVals (setUnits l k v) = sumVals l - w + v := by
  induction l with
  | nil => simp [lookupUnits] at h
  | cons p t ih =>
    obtain ⟨k', v'⟩ := p
    by_cases hk : k' = k
    · subst hk
      rw [lookupUnits_cons_self] at h
      injection h with h
      subst h
      rw [setUnits_cons_self]
      simp only [sumVals, List.map_cons, List.sum_cons]
      ring
    · rw [lookupUnits_cons_ne hk] at h
      have hnd' : (t.map Prod.fst).Nodup := (List.nodup_cons.mp hnd).2
      rw [setUnits_cons_ne hk]
      simp only [sumVals, List.map_cons, List.sum_cons]
      have := ih hnd' h
      simp only [sumVals] at this
      rw [this]
      ring

/-! ### Lemmas about one loop iteration -/

theorem applyDelta_total (st : EngState) (r : Tx) (navpu s : ℚ) :
    (applyDelta st r navpu s).total_units = st.total_units + s := rfl

theorem applyDelta_rows (st : EngState) (r : Tx) (navpu s : ℚ) :
    (applyDelta st r navpu s).rows =
      st.rows ++ [mkEntry r navpu s
        (balOf (ensureUnits st.investor_units r.Investor) r.Investor + s)
        (st.total_units + s)] := rfl

theorem applyDelta_keys_nodup {st : EngState} {r : Tx} {navpu s : ℚ}
    (hnd : (st.investor_units.map Prod.fst).Nodup) :
    (((applyDelta st r navpu s).investor_units).map Prod.fst).Nodup := by
  unfold applyDelta
  simp only [setUnits_keys]
  exact ensureUnits_keys_nodup hnd

theorem applyDelta_sumVals {st : EngState} {r : Tx} {navpu s : ℚ}
    (hnd : (st.investor_units.map Prod.fst).Nodup) :
    sumVals (applyDelta st r navpu s).investor_units = sumVals st.investor_units + s := by
  unfold applyDelta
  simp only
  rw [sumVals_setUnits _ (ensureUnits_keys_nodup hnd) (lookupUnits_ensure _ _),
    sumVals_ensure, balOf_ensure]
  ring

theorem balOf_of_balInv {units : List (String × ℚ)} {inv : String}
    (hb : ∀ p ∈ units, -tol ≤ p.2) : -tol ≤ balOf units inv := by
  unfold balOf
  cases hl : lookupUnits units inv with
  | none =>
    simp only [Option.getD_none]
    linarith [tol_pos]
  | some v =>
    simpa using hb _ (lookupUnits_mem hl)

theorem applyDelta_balances {st : EngState} {r : Tx} {navpu s : ℚ}
    (hb : ∀ p ∈ st.investor_units, -tol ≤ p.2)
    (hnew : -tol ≤ balOf (ensureUnits st.investor_units r.Investor) r.Investor + s) :
    ∀ p ∈ (applyDelta st r navpu s).investor_units, -tol ≤ p.2 := by
  intro p hp
  unfold applyDelta at hp
  simp only at hp
  rcases setUnits_mem hp with h | h
  · rcases ensureUnits_mem h with h' | h'
    · exact hb _ h'
    · subst h'
      simpa using le_of_lt tol_pos
  · subst h
    exact hnew

/-! ### Rounding bounds -/

theorem ratFloor_eq (q : ℚ) : Rat.floor q = ⌊q⌋ := rfl

theorem round6_nonneg {q : ℚ} (h : -tol ≤ q) : 0 ≤ round6 q := by
  unfold round6 roundQ
  rw [ratFloor_eq]
  have hq : (0 : ℚ) ≤ q * 1000000 + 1 / 2 := by
    unfold tol at h
    nlinarith
  have h0 : (0 : ℤ) ≤ ⌊q * 1000000 + 1 / 2⌋ := by
    rw [Int.le_floor]
    exact_mod_cast hq
  have : (0 : ℚ) ≤ (⌊q * 1000000 + 1 / 2⌋ : ℚ) := by exact_mod_cast h0
  positivity

/-! ### Inversion and accounting lemmas for `stepTx` and `runTx` -/

theorem stepTx_missing {nav : String → Option ℚ} {st : EngState} {r : Tx}
    (h : nav r.Date = none) : stepTx nav st r = .error (.missingQuote r.Date) := by
  simp only [stepTx, h]

theorem stepTx_sub {nav : String → Option ℚ} {st : EngState} {r : Tx} {navpu : ℚ}
    (hnav : nav r.Date = some navpu) (hpos : 0 < navpu)
    (hk : r.TxType = "subscription") :
    stepTx nav st r = .ok (applyDelta st r navpu (r.Amount_Base / navpu)) := by
  simp only [stepTx, hnav]
  rw [if_neg (not_le.mpr hpos), if_pos hk]

theorem stepTx_red_ok {nav : String → Option ℚ} {st : EngState} {r : Tx} {navpu : ℚ}
    (hnav : nav r.Date = some navpu) (hpos : 0 < navpu)
    (hk : ¬ r.TxType = "subscription")
    (hchk : ¬ (balOf (ensureUnits st.investor_units r.Investor) r.Investor + tol
      < r.Amount_Base / navpu)) :
    stepTx nav st r = .ok (applyDelta st r navpu (-(r.Amount_Base / navpu))) := by
  simp only [stepTx, hnav]
  rw [if_neg (not_le.mpr hpos), if_neg hk, if_neg hchk]

theorem stepTx_red_fail {nav : String → Option ℚ} {st : EngState} {r : Tx} {navpu : ℚ}
    (hnav : nav r.Date = some navpu) (hpos : 0 < navpu)
    (hk : ¬ r.TxType = "subscription")
    (hchk : balOf (ensureUnits st.investor_units r.Investor) r.Investor + tol
      < r.Amount_Base / navpu) :
    stepTx nav st r = .error (.insufficientBalance r.Investor r.Date
      (balOf (ensureUnits st.investor_units r.Investor) r.Investor)
      (r.Amount_Base / navpu)) := by
  simp only [stepTx, hnav]
  rw [if_neg (not_le.mpr hpos), if_neg hk, if_pos hchk]

theorem stepTx_ok_elim {nav : String → Option ℚ} {st : EngState} {r : Tx}
    {st' : EngState} (h : stepTx nav st r = .ok st') :
    ∃ navpu, nav r.Date = some navpu ∧ 0 < navpu ∧
      ((r.TxType = "subscription" ∧
          st' = applyDelta st r navpu (r.Amount_Base / navpu)) ∨
       (¬ r.TxType = "subscription" ∧
          ¬ (balOf (ensureUnits st.investor_units r.Investor) r.Investor + tol
            < r.Amount_Base / navpu) ∧
          st' = applyDelta st r navpu (-(r.Amount_Base / navpu)))) := by
  cases hnav : nav r.Date with
  | none => rw [stepTx_missing hnav] at h; cases h
  | some navpu =>
    simp only [stepTx, hnav] at h
    by_cases h1 : navpu ≤ 0
    · rw [if_pos h1] at h; cases h
    · rw [if_neg h1] at h
      by_cases h2 : r.TxType = "subscription"
      · rw [if_pos h2] at h
        injection h with h
        exact ⟨navpu, rfl, not_le.mp h1, Or.inl ⟨h2, h.symm⟩⟩
      · rw [if_neg h2] at h
        by_cases h3 : balOf (ensureUnits st.investor_units r.Investor) r.Investor + tol
            < r.Amount_Base / navpu
        · rw [if_pos h3] at h; cases h
        · rw [if_neg h3] at h
          injection h with h
          exact ⟨navpu, rfl, not_le.mp h1, Or.inr ⟨h2, h3, h.symm⟩⟩

theorem runTx_nil {nav : String → Option ℚ} {st : EngState} :
    runTx nav st [] = .ok st := rfl

theorem runTx_cons_ok {nav : String → Option ℚ} {st st₁ : EngState} {r : Tx}
    {l : List Tx} (h : stepTx nav st r = .ok st₁) :
    runTx nav st (r :: l) = runTx nav st₁ l := by
  simp only [runTx, h]

theorem runTx_cons_err {nav : String → Option ℚ} {st : EngState} {r : Tx}
    {l : List Tx} {e : PyError} (h : stepTx nav st r = .error e) :
    runTx nav st (r :: l) = .error e := by
  simp only [runTx, h]

theorem runTx_append_ok {nav : String → Option ℚ} {l₁ l₂ : List Tx}
    {st st₁ : EngState} (h : runTx nav st l₁ = .ok st₁) :
    runTx nav st (l₁ ++ l₂) = runTx nav st₁ l₂ := by
  induction l₁ generalizing st with
  | nil =>
    injection h with h
    subst h
    rfl
  | cons r t ih =>
    cases hstep : stepTx nav st r with
    | error e => rw [runTx_cons_err hstep] at h; cases h
    | ok st₂ =>
      rw [runTx_cons_ok hstep] at h
      rw [List.cons_append, runTx_cons_ok hstep]
      exact ih h

theorem stepTx_ok_applyDelta {nav : String → Option ℚ} {st st' : EngState} {r : Tx}
    (h : stepTx nav st r = .ok st') :
    ∃ navpu s, st' = applyDelta st r navpu s := by
  obtain ⟨navpu, -, -, hcase⟩ := stepTx_ok_elim h
  rcases hcase with ⟨-, h'⟩ | ⟨-, -, h'⟩
  · exact ⟨navpu, _, h'⟩
  · exact ⟨navpu, _, h'⟩

/-! ### Filtered-sum lemmas -/

theorem subDeltaSum_nil {nav : String → Option ℚ} : subDeltaSum nav [] = 0 := rfl

theorem redDeltaSum_nil {nav : String → Option ℚ} : redDeltaSum nav [] = 0 := rfl

theorem subDeltaSum_cons_sub {nav : String → Option ℚ} {r : Tx} {t : List Tx}
    (h : r.TxType = "subscription") :
    subDeltaSum nav (r :: t) = deltaOf nav r + subDeltaSum nav t := by
  unfold subDeltaSum
  rw [List.filter_cons_of_pos (by simpa using h)]
  simp

theorem subDeltaSum_cons_red {nav : String → Option ℚ} {r : Tx} {t : List Tx}
    (h : ¬ r.TxType = "subscription") :
    subDeltaSum nav (r :: t) = subDeltaSum nav t := by
  unfold subDeltaSum
  rw [List.filter_cons_of_neg (by simpa using h)]

theorem redDeltaSum_cons_red {nav : String → Option ℚ} {r : Tx} {t : List Tx}
    (h : r.TxType = "redemption") :
    redDeltaSum nav (r :: t) = deltaOf nav r + redDeltaSum nav t := by
  unfold redDeltaSum
  rw [List.filter_cons_of_pos (by simpa using h)]
  simp

theorem redDeltaSum_cons_sub {nav : String → Option ℚ} {r : Tx} {t : List Tx}
    (h : ¬ r.TxType = "redemption") :
    redDeltaSum nav (r :: t) = redDeltaSum nav t := by
  unfold redDeltaSum
  rw [List.filter_cons_of_neg (by simpa using h)]

theorem subDeltaSum_perm {nav : String → Option ℚ} {l l' : List Tx} (h : l.Perm l') :
    subDeltaSum nav l = subDeltaSum nav l' :=
  ((h.filter _).map (deltaOf nav)).sum_eq

theorem redDeltaSum_perm {nav : String → Option ℚ} {l l' : List Tx} (h : l.Perm l') :
    redDeltaSum nav l = redDeltaSum nav l' :=
  ((h.filter _).map (deltaOf nav)).sum_eq

theorem sumVals_perm {u u' : List (String × ℚ)} (h : u.Perm u') :
    sumVals u = sumVals u' :=
  (h.map Prod.snd).sum_eq

theorem subSum_eq (nav : String → Option ℚ) (rows : List Tx) :
    subSum nav rows = subDeltaSum nav (normalizeRows rows) := by
  induction rows with
  | nil => rfl
  | cons r t ih =>
    show subSum nav (r :: t) = subDeltaSum nav (normalizeRows (r :: t))
    have hmap : normalizeRows (r :: t)
        = { r with TxType := normKind r.TxType } :: normalizeRows t := rfl
    rw [hmap]
    by_cases h : normKind r.TxType = "subscription"
    · rw [subDeltaSum_cons_sub (by simpa using h)]
      unfold subSum
      rw [List.filter_cons_of_pos (by simpa using h)]
      simp only [List.map_cons, List.sum_cons]
      have : deltaOf nav { r with TxType := normKind r.TxType } = deltaOf nav r := rfl
      rw [← ih]
      rfl
    · rw [subDeltaSum_cons_red (by simpa using h)]
      unfold subSum
      rw [List.filter_cons_of_neg (by simpa using h)]
      exact ih

theorem redSum_eq (nav : String → Option ℚ) (rows : List Tx) :
    redSum nav rows = redDeltaSum nav (normalizeRows rows) := by
  induction rows with
  | nil => rfl
  | cons r t ih =>
    show redSum nav (r :: t) = redDeltaSum nav (normalizeRows (r :: t))
    have hmap : normalizeRows (r :: t)
        = { r with TxType := normKind r.TxType } :: normalizeRows t := rfl
    rw [hmap]
    by_cases h : normKind r.TxType = "redemption"
    · rw [redDeltaSum_cons_red (by simpa using h)]
      unfold redSum
      rw [List.filter_cons_of_pos (by simpa using h)]
      simp only [List.map_cons, List.sum_cons]
      rw [← ih]
      rfl
    · rw [redDeltaSum_cons_sub (by simpa using h)]
      unfold redSum
      rw [List.filter_cons_of_neg (by simpa using h)]
      exact ih

/-! ### Invariants threaded along the whole loop -/

theorem runTx_total {nav : String → Option ℚ} {st st' : EngState} {l : List Tx}
    (hkinds : ∀ r ∈ l, r.TxType = "subscription" ∨ r.TxType = "redemption")
    (h : runTx nav st l = .ok st') :
    st'.total_units = st.total_units + subDeltaSum nav l - redDeltaSum nav l := by
  induction l generalizing st with
  | nil =>
    injection h with h
    subst h
    simp [subDeltaSum_nil, redDeltaSum_nil]
  | cons r t ih =>
    cases hstep : stepTx nav st r with
    | error e => rw [runTx_cons_err hstep] at h; cases h
    | ok st₁ =>
      rw [runTx_cons_ok hstep] at h
      obtain ⟨navpu, hnav, hpos, hcase⟩ := stepTx_ok_elim hstep
      have hdelta : deltaOf nav r = r.Amount_Base / navpu := by
        unfold deltaOf
        rw [hnav]
        rfl
      have ht := ih (fun r hr => hkinds r (List.mem_cons_of_mem _ hr)) h
      rcases hcase with ⟨hsub, hst⟩ | ⟨hnsub, hchk, hst⟩
      · subst hst
        rw [subDeltaSum_cons_sub hsub,
          redDeltaSum_cons_sub (by rw [hsub]; decide)]
        rw [ht, applyDelta_total, hdelta]
        ring
      · have hred : r.TxType = "redemption" :=
          (hkinds r (List.mem_cons_self _ _)).resolve_left hnsub
        subst hst
        rw [subDeltaSum_cons_red hnsub, redDeltaSum_cons_red hred]
        rw [ht, applyDelta_total, hdelta]
        ring

theorem runTx_struct {nav : String → Option ℚ} {st st' : EngState} {l : List Tx}
    (h : runTx nav st l = .ok st')
    (hnd : (st.investor_units.map Prod.fst).Nodup) :
    (st'.investor_units.map Prod.fst).Nodup ∧
      st'.total_units - sumVals st'.investor_units
        = st.total_units - sumVals st.investor_units := by
  induction l generalizing st with
  | nil =>
    injection h with h
    subst h
    exact ⟨hnd, rfl⟩
  | cons r t ih =>
    cases hstep : stepTx nav st r with
    | error e => rw [runTx_cons_err hstep] at h; cases h
    | ok st₁ =>
      rw [runTx_cons_ok hstep] at h
      obtain ⟨navpu, s, hst⟩ := stepTx_ok_applyDelta hstep
      subst hst
      obtain ⟨hnd', heq⟩ := ih h (applyDelta_keys_nodup hnd)
      refine ⟨hnd', ?_⟩
      rw [heq, applyDelta_total, applyDelta_sumVals hnd]
      ring

theorem runTx_balances {nav : String → Option ℚ} {st st' : EngState} {l : List Tx}
    (h : runTx nav st l = .ok st')
    (hpos : ∀ r ∈ l, 0 < r.Amount_Base)
    (hb : ∀ p ∈ st.investor_units, -tol ≤ p.2)
    (hl : ∀ e ∈ st.rows, -tol ≤ e.Investor_Units_After) :
    (∀ p ∈ st'.investor_units, -tol ≤ p.2) ∧
      (∀ e ∈ st'.rows, -tol ≤ e.Investor_Units_After) := by
  induction l generalizing st with
  | nil =>
    injection h with h
    subst h
    exact ⟨hb, hl⟩
  | cons r t ih =>
    cases hstep : stepTx nav st r with
    | error e => rw [runTx_cons_err hstep] at h; cases h
    | ok st₁ =>
      rw [runTx_cons_ok hstep] at h
      obtain ⟨navpu, hnav, hnavpos, hcase⟩ := stepTx_ok_elim hstep
      have hbal0 : -tol ≤ balOf (ensureUnits st.investor_units r.Investor) r.Investor := by
        rw [balOf_ensure]
        exact balOf_of_balInv hb
      have hamt : 0 < r.Amount_Base := hpos r (List.mem_cons_self _ _)
      have hnew : ∀ s : ℚ,
          -tol ≤ balOf (ensureUnits st.investor_units r.Investor) r.Investor + s →
          (∀ p ∈ (applyDelta st r navpu s).investor_units, -tol ≤ p.2) ∧
            (∀ e ∈ (applyDelta st r navpu s).rows, -tol ≤ e.Investor_Units_After) := by
        intro s hs
        refine ⟨applyDelta_balances hb hs, ?_⟩
        intro e he
        rw [applyDelta_rows] at he
        rcases List.mem_append.mp he with he | he
        · exact hl e he
        · rw [List.mem_singleton] at he
          subst he
          have h6 : 0 ≤ round6
              (balOf (ensureUnits st.investor_units r.Investor) r.Investor + s) :=
            round6_nonneg hs
          have hE : (mkEntry r navpu s
              (balOf (ensureUnits st.investor_units r.Investor) r.Investor + s)
              (st.total_units + s)).Investor_Units_After
              = round6 (balOf (ensureUnits st.investor_units r.Investor) r.Investor + s) := rfl
          rw [hE]
          linarith [tol_pos]
      rcases hcase with ⟨hsub, hst⟩ | ⟨hnsub, hchk, hst⟩
      · subst hst
        have hdelta : 0 < r.Amount_Base / navpu := div_pos hamt hnavpos
        obtain ⟨hb', hl'⟩ := hnew (r.Amount_Base / navpu) (by linarith)
        exact ih h (fun r hr => hpos r (List.mem_cons_of_mem _ hr)) hb' hl'
      · subst hst
        rw [not_lt] at hchk
        obtain ⟨hb', hl'⟩ := hnew (-(r.Amount_Base / navpu)) (by linarith)
        exact ih h (fun r hr => hpos r (List.mem_cons_of_mem _ hr)) hb' hl'

theorem runTx_dates {nav : String → Option ℚ} {st st' : EngState} {l : List Tx}
    (h : runTx nav st l = .ok st') : ∀ r ∈ l, (nav r.Date).isSome := by
  induction l generalizing st with
  | nil => intro r hr; cases hr
  | cons r t ih =>
    cases hstep : stepTx nav st r with
    | error e => rw [runTx_cons_err hstep] at h; cases h
    | ok st₁ =>
      rw [runTx_cons_ok hstep] at h
      intro q hq
      rcases List.mem_cons.mp hq with hq | hq
      · obtain ⟨navpu, hnav, -, -⟩ := stepTx_ok_elim hstep
        subst hq
        rw [hnav]
        rfl
      · exact ih h q hq

/-! ### Inversion of the whole engine -/

theorem kindsValid_iff {l : List Tx} :
    kindsValid l = true ↔
      ∀ r ∈ l, r.TxType = "subscription" ∨ r.TxType = "redemption" := by
  simp [kindsValid, List.all_eq_true]

theorem unitisation_process_mkTable (o onav : ℚ) (rows : List Tx)
    (nav : String → Option ℚ) :
    unitisation_process o onav (mkTable rows) nav = processTx o onav rows nav := by
  unfold unitisation_process mkTable missingCols
  simp

theorem processTx_ok_elim {o onav : ℚ} {rows : List Tx} {nav : String → Option ℚ}
    {out : Output} (h : processTx o onav rows nav = .ok out) :
    ∃ st, kindsValid (normalizeRows rows) = true ∧
      runTx nav (initState o) (sortTx (normalizeRows rows)) = .ok st ∧
      out = { ledger := st.rows
              investor_summary := sortSummary st.investor_units
              totals := { Opening_Units := round6 o
                          Opening_NAV_Per_Unit := round6 onav
                          Closing_Units := round6 st.total_units } } := by
  simp only [processTx] at h
  by_cases hk : kindsValid (normalizeRows rows)
  · rw [if_pos hk] at h
    cases hrun : runTx nav (initState o) (sortTx (normalizeRows rows)) with
    | error e => rw [hrun] at h; cases h
    | ok st =>
      rw [hrun] at h
      injection h with h
      exact ⟨st, hk, rfl, h.symm⟩
  · rw [if_neg hk] at h
    cases h

/-! ### Shared concrete inputs for witnesses -/

attribute [local semireducible] Rat.add Rat.mul Rat.sub Rat.inv Rat.ofScientific

/-- A two-date NAV table for concrete runs. -/
def navW : String → Option ℚ := fun d =>
  if d = "2026-01-02" then some 1
  else if d = "2026-01-03" then some (102 / 100) else none

/-- A subscription followed by a redemption for the same investor. -/
def rowsW : List Tx :=
  [⟨"2026-01-02", "A", "Subscription", 100⟩,
   ⟨"2026-01-03", "A", "Redemption", 51⟩]

/-- The output of the engine on `rowsW` with opening units 10. -/
def outW : Output :=
  { ledger :=
      [{ Date := "2026-01-02", Investor := "A", TxType := "Subscription",
         Amount_Base := 100, NAV_Per_Unit := 1, Units_Change := 100,
         Investor_Units_After := 100, Total_Units_After := 110 },
       { Date := "2026-01-03", Investor := "A", TxType := "Redemption",
         Amount_Base := 51, NAV_Per_Unit := 51 / 50, Units_Change := -50,
         Investor_Units_After := 50, Total_Units_After := 60 }]
    investor_summary := [("A", 50)]
    totals := { Opening_Units := 10, Opening_NAV_Per_Unit := 1, Closing_Units := 60 } }

/-! ### The claims -/

/-- C1: Conservation of units.  On every successful run the engine-internal
final total — exposed as `openingUnits + Σ investorSummary`, the second form
the claim gives for it — equals `openingUnits + Σ(subscription unitsDelta)
− Σ(redemption unitsDelta)`, and the emitted `Closing_Units` is exactly its
6-decimal rounding.  The opening units are attributed to no named investor. -/
theorem conservation_of_units (opening_units opening_nav : ℚ) (rows : List Tx)
    (nav : String → Option ℚ) (out : Output)
    (h : unitisation_process opening_units opening_nav (mkTable rows) nav = .ok out) :
    opening_units + sumVals out.investor_summary
        = opening_units + subSum nav rows - redSum nav rows ∧
    out.totals.Closing_Units = round6 (opening_units + sumVals out.investor_summary) := by
  rw [unitisation_process_mkTable] at h
  obtain ⟨st, hk, hrun, hout⟩ := processTx_ok_elim h
  subst hout
  have hperm : (sortTx (normalizeRows rows)).Perm (normalizeRows rows) :=
    List.perm_insertionSort _ _
  have hkinds : ∀ r ∈ sortTx (normalizeRows rows),
      r.TxType = "subscription" ∨ r.TxType = "redemption" :=
    fun r hr => (kindsValid_iff.mp hk) r (hperm.subset hr)
  have htot := runTx_total hkinds hrun
  obtain ⟨-, hinv⟩ := runTx_struct hrun (by simp [initState])
  have hsummary : sumVals (sortSummary st.investor_units) = sumVals st.investor_units :=
    sumVals_perm (List.perm_insertionSort _ _)
  have hT : st.total_units = opening_units + sumVals st.investor_units := by
    have h1 : sumVals (initState opening_units).investor_units = 0 := rfl
    have h2 : (initState opening_units).total_units = opening_units := rfl
    rw [h1, h2] at hinv
    linarith
  constructor
  · show opening_units + sumVals (sortSummary st.investor_units)
        = opening_units + subSum nav rows - redSum nav rows
    rw [hsummary, ← hT, htot, subSum_eq, redSum_eq,
      subDeltaSum_perm hperm, redDeltaSum_perm hperm]
    show opening_units + _ - _ = _
    ring
  · show round6 st.total_units
        = round6 (opening_units + sumVals (sortSummary st.investor_units))
    rw [hsummary, ← hT]

/-- Witness for C1: the conservation identities evaluated on the concrete
run of `rowsW` from opening units 10. -/
theorem conservation_of_units_witness :
    10 + sumVals outW.investor_summary = 10 + subSum navW rowsW - redSum navW rowsW ∧
    outW.totals.Closing_Units = round6 (10 + sumVals outW.investor_summary) :=
  conservation_of_units 10 1 rowsW navW outW (by decide)

/-- C2: Non-negativity.  On transactions with positive amounts, every
successful run keeps every recorded `Investor_Units_After` and every final
investor balance at or above `-1e-12`. -/
theorem non_negativity (opening_units opening_nav : ℚ) (rows : List Tx)
    (nav : String → Option ℚ) (out : Output)
    (hpos : ∀ r ∈ rows, 0 < r.Amount_Base)
    (h : unitisation_process opening_units opening_nav (mkTable rows) nav = .ok out) :
    (∀ e ∈ out.ledger, -tol ≤ e.Investor_Units_After) ∧
    (∀ p ∈ out.investor_summary, -tol ≤ p.2) := by
  rw [unitisation_process_mkTable] at h
  obtain ⟨st, hk, hrun, hout⟩ := processTx_ok_elim h
  subst hout
  have hpos' : ∀ r ∈ sortTx (normalizeRows rows), 0 < r.Amount_Base := by
    intro r hr
    have hr' := (List.perm_insertionSort _ _).subset hr
    obtain ⟨r₀, hr₀, hr₁⟩ := List.mem_map.mp hr'
    have : r.Amount_Base = r₀.Amount_Base := by rw [← hr₁]
    rw [this]
    exact hpos r₀ hr₀
  obtain ⟨hbal, hledg⟩ := runTx_balances hrun hpos'
    (by simp [initState]) (by simp [initState])
  constructor
  · exact hledg
  · intro p hp
    exact hbal p ((List.perm_insertionSort _ _).subset hp)

/-- Witness for C2: non-negativity evaluated on the concrete run of `rowsW`
(both amounts positive) from opening units 10. -/
theorem non_negativity_witness :
    (∀ e ∈ outW.ledger, -tol ≤ e.Investor_Units_After) ∧
    (∀ p ∈ outW.investor_summary, -tol ≤ p.2) :=
  non_negativity 10 1 rowsW navW outW (by decide) (by decide)

/-! ### Uniqueness of the sorted order on tie-free inputs -/

theorem leTx_both {a b : Tx} (hab : leTx a b) (hba : leTx b a) : txKey a = txKey b := by
  rcases hab with h | ⟨hd, hi⟩
  · rcases hba with h' | ⟨hd', hi'⟩
    · exact absurd (h.trans h') (lt_irrefl _)
    · exact absurd (hd' ▸ h) (lt_irrefl _)
  · rcases hba with h' | ⟨hd', hi'⟩
    · exact absurd (hd ▸ h') (lt_irrefl _)
    · have hinv : a.Investor = b.Investor := le_antisymm hi hi'
      unfold txKey
      rw [hd, hinv]

theorem sortTx_eq_of_perm {l₁ l₂ : List Tx} (hperm : l₁.Perm l₂)
    (hnd : (l₁.map txKey).Nodup) : sortTx l₁ = sortTx l₂ := by
  have hs₁ : (sortTx l₁).Sorted leTx := List.sorted_insertionSort _ _
  have hs₂ : (sortTx l₂).Sorted leTx := List.sorted_insertionSort _ _
  have hp : (sortTx l₁).Perm (sortTx l₂) :=
    ((List.perm_insertionSort _ _).trans hperm).trans (List.perm_insertionSort _ _).symm
  refine hp.eq_of_sorted ?_ hs₁ hs₂
  intro a b ha hb hab hba
  have ha' : a ∈ l₁ := (List.perm_insertionSort _ _).subset ha
  have hb' : b ∈ l₁ :=
    hperm.symm.subset ((List.perm_insertionSort _ _).subset hb)
  exact List.inj_on_of_nodup_map hnd ha' hb' (leTx_both hab hba)

theorem normalizeRows_txKey (rows : List Tx) :
    (normalizeRows rows).map txKey = rows.map txKey := by
  unfold normalizeRows
  rw [List.map_map]
  rfl

theorem kindsValid_perm {l l' : List Tx} (h : l.Perm l') :
    kindsValid l = kindsValid l' := by
  by_cases hk : kindsValid l = true
  · rw [hk,
      (kindsValid_iff.mpr (fun r hr => (kindsValid_iff.mp hk) r (h.symm.subset hr)))]
  · have h₂ : ¬ kindsValid l' = true := by
      intro hk₂
      exact hk (kindsValid_iff.mpr (fun r hr => (kindsValid_iff.mp hk₂) r (h.subset hr)))
    rw [Bool.not_eq_true] at hk h₂
    rw [hk, h₂]

/-- A same-day pair of subscriptions by the same investor, in both orders. -/
def rowsT1 : List Tx :=
  [⟨"2026-01-02", "A", "Subscription", 1⟩, ⟨"2026-01-02", "A", "Subscription", 2⟩]

/-- The same pair as `rowsT1`, swapped. -/
def rowsT2 : List Tx :=
  [⟨"2026-01-02", "A", "Subscription", 2⟩, ⟨"2026-01-02", "A", "Subscription", 1⟩]

/-- C3 counterexample: the two inputs are permutations of each other, yet the
runs differ — the stable sort keeps the two tied transactions (same date,
same investor) in their input order, so the ledgers disagree entry for entry
already at the first entry (`Units_Change` 1 vs 2). -/
theorem determinism_counterexample :
    unitisation_process 0 1 (mkTable rowsT1) navW
      ≠ unitisation_process 0 1 (mkTable rowsT2) navW := by decide

/-- C3 (amended): determinism under input reordering holds whenever no two
transactions share the same (date, investor) pair: two permuted inputs
produce identical results (ledger, summaries and totals alike).  With ties
on (date, investor), the stable sort preserves input order inside the tied
group, so the ledger (and even success) can differ — see the
counterexample. -/
theorem determinism_under_reordering (opening_units opening_nav : ℚ)
    (nav : String → Option ℚ) (rows₁ rows₂ : List Tx)
    (hperm : rows₁.Perm rows₂)
    (hnd : (rows₁.map txKey).Nodup) :
    unitisation_process opening_units opening_nav (mkTable rows₁) nav
      = unitisation_process opening_units opening_nav (mkTable rows₂) nav := by
  rw [unitisation_process_mkTable, unitisation_process_mkTable]
  have hperm' : (normalizeRows rows₁).Perm (normalizeRows rows₂) := hperm.map _
  have hnd' : ((normalizeRows rows₁).map txKey).Nodup := by
    rw [normalizeRows_txKey]
    exact hnd
  have hsort : sortTx (normalizeRows rows₁) = sortTx (normalizeRows rows₂) :=
    sortTx_eq_of_perm hperm' hnd'
  have hkv : kindsValid (normalizeRows rows₁) = kindsValid (normalizeRows rows₂) :=
    kindsValid_perm hperm'
  simp only [processTx]
  rw [hsort, hkv]

/-- The transactions of `rowsW`, swapped. -/
def rowsWrev : List Tx :=
  [⟨"2026-01-03", "A", "Redemption", 51⟩,
   ⟨"2026-01-02", "A", "Subscription", 100⟩]

/-- Witness for C3 (amended): a concrete permuted pair with distinct
(date, investor) keys runs to the same result. -/
theorem determinism_under_reordering_witness :
    unitisation_process 10 1 (mkTable rowsW) navW
      = unitisation_process 10 1 (mkTable rowsWrev) navW :=
  determinism_under_reordering 10 1 navW rowsW rowsWrev
    (List.Perm.swap _ _ _) (by decide)

/-- C4: the canonical reordering of source line 35 is a permutation of the
input, sorted by (date ascending, investor ascending), and stable: for every
(date, investor) pair, the subsequence of transactions carrying exactly that
key is the same — in the same order — in the sorted output as in the
caller-supplied input. -/
theorem canonical_stable_sort (rows : List Tx) :
    (sortTx rows).Perm rows ∧
    (sortTx rows).Sorted leTx ∧
    ∀ d i : String,
      (sortTx rows).filter (fun r => decide (r.Date = d ∧ r.Investor = i))
        = rows.filter (fun r => decide (r.Date = d ∧ r.Investor = i)) := by
  refine ⟨List.perm_insertionSort _ _, List.sorted_insertionSort _ _, ?_⟩
  intro d i
  set p : Tx → Bool := fun r => decide (r.Date = d ∧ r.Investor = i) with hp
  have hpair : (rows.filter p).Pairwise leTx := by
    apply List.pairwise_of_forall_mem_list
    intro a ha b hb
    have ha' := (List.mem_filter.mp ha).2
    have hb' := (List.mem_filter.mp hb).2
    rw [hp] at ha' hb'
    simp only [decide_eq_true_eq] at ha' hb'
    exact Or.inr ⟨ha'.1.trans hb'.1.symm, by rw [ha'.2, hb'.2]⟩
  have hsub : List.Sublist (rows.filter p) (sortTx rows) :=
    List.sublist_insertionSort hpair (List.filter_sublist rows)
  have hself : (rows.filter p).filter p = rows.filter p := by
    apply List.filter_eq_self.mpr
    intro a ha
    exact (List.mem_filter.mp ha).2
  have hsub2 : List.Sublist (rows.filter p) ((sortTx rows).filter p) := by
    rw [← hself]
    exact hsub.filter _
  have hlen : ((sortTx rows).filter p).length = (rows.filter p).length :=
    ((List.perm_insertionSort leTx rows).filter p).length_eq
  exact (hsub2.eq_of_length hlen.symm).symm

/-! ### C5: the redemption tolerance boundary -/

/-- The scenario-B subscription building a 5000-unit balance, then the
boundary redemption of amount 5100 at NAV 1.02 (unitsDelta exactly 5000). -/
def rows5a : List Tx :=
  [⟨"2026-01-02", "A", "Subscription", 5000⟩,
   ⟨"2026-01-03", "A", "Redemption", 5100⟩]

/-- The scenario-B failing redemption: amount 5200 at NAV 1.02
(unitsDelta ≈ 5098.04 against a balance of 5000). -/
def rows5b : List Tx :=
  [⟨"2026-01-02", "A", "Subscription", 5000⟩,
   ⟨"2026-01-03", "A", "Redemption", 5200⟩]

/-- The output of the boundary run `rows5a`. -/
def out5a : Output :=
  { ledger :=
      [{ Date := "2026-01-02", Investor := "A", TxType := "Subscription",
         Amount_Base := 5000, NAV_Per_Unit := 1, Units_Change := 5000,
         Investor_Units_After := 5000, Total_Units_After := 5000 },
       { Date := "2026-01-03", Investor := "A", TxType := "Redemption",
         Amount_Base := 5100, NAV_Per_Unit := 51 / 50, Units_Change := -5000,
         Investor_Units_After := 0, Total_Units_After := 0 }]
    investor_summary := [("A", 0)]
    totals := { Opening_Units := 0, Opening_NAV_Per_Unit := 1, Closing_Units := 0 } }

/-- C5: Redemption tolerance boundary.  In general: a redemption whose
`unitsDelta` equals the investor's current balance passes the tolerance
check, while one whose `unitsDelta` exceeds the balance by more than `1e-12`
raises `InsufficientBalanceError` carrying the investor, the date, and held
vs requested units.  Concretely (scenario B): from a 5000-unit balance at
NAV-per-unit 1.02, amount 5100.00 succeeds exactly and amount 5200.00 fails. -/
theorem redemption_tolerance_boundary :
    (∀ (nav : String → Option ℚ) (st : EngState) (r : Tx) (navpu : ℚ),
        nav r.Date = some navpu → 0 < navpu → r.TxType = "redemption" →
        r.Amount_Base / navpu = balOf st.investor_units r.Investor →
        (stepTx nav st r).isOk = true) ∧
    (∀ (nav : String → Option ℚ) (st : EngState) (r : Tx) (navpu : ℚ),
        nav r.Date = some navpu → 0 < navpu → r.TxType = "redemption" →
        balOf st.investor_units r.Investor + tol < r.Amount_Base / navpu →
        stepTx nav st r = .error (.insufficientBalance r.Investor r.Date
          (balOf st.investor_units r.Investor) (r.Amount_Base / navpu))) ∧
    unitisation_process 0 1 (mkTable rows5a) navW = .ok out5a ∧
    unitisation_process 0 1 (mkTable rows5b) navW
      = .error (.insufficientBalance "A" "2026-01-03" 5000 (5200 / (102 / 100))) := by
  refine ⟨?_, ?_, by decide, by decide⟩
  · intro nav st r navpu hnav hpos hk heq
    have hk' : ¬ r.TxType = "subscription" := by rw [hk]; decide
    have hchk : ¬ (balOf (ensureUnits st.investor_units r.Investor) r.Investor + tol
        < r.Amount_Base / navpu) := by
      rw [balOf_ensure, heq]
      intro hlt
      linarith [tol_pos]
    rw [stepTx_red_ok hnav hpos hk' hchk]
    rfl
  · intro nav st r navpu hnav hpos hk hlt
    have hk' : ¬ r.TxType = "subscription" := by rw [hk]; decide
    rw [stepTx_red_fail hnav hpos hk' (by rw [balOf_ensure]; exact hlt)]
    rw [balOf_ensure]

/-- A state holding a 5000-unit balance for investor A. -/
def st5 : EngState :=
  { investor_units := [("A", 5000)], total_units := 5000, rows := [] }

/-- The (normalised) boundary redemption of scenario B. -/
def tx5 : Tx := ⟨"2026-01-03", "A", "redemption", 5100⟩

/-- Witness for C5: the boundary branch evaluated at the concrete scenario-B
state — the redemption whose `unitsDelta` equals the balance succeeds. -/
theorem redemption_tolerance_boundary_witness :
    (stepTx navW st5 tx5).isOk = true :=
  redemption_tolerance_boundary.1 navW st5 tx5 (102 / 100)
    (by decide) (by decide) rfl (by decide)

/-! ### C6: missing NAV quote -/

/-- A batch with an invalid kind on one date and a missing NAV quote on
another. -/
def rows6c : List Tx :=
  [⟨"2026-01-01", "A", "Purchase", 5⟩,
   ⟨"2026-01-02", "B", "Subscription", 5⟩]

/-- The NAV table for `rows6c`: the first date is quoted, the second is not. -/
def nav6c : String → Option ℚ := fun d => if d = "2026-01-01" then some 1 else none

/-- C6 counterexample: an input whose second transaction's date has no NAV
entry nevertheless fails with `InvalidKindError` (the whole-batch kind check
of source lines 30-32 runs before any NAV lookup), not with
`MissingQuoteError` as the claim asserts for every such input. -/
theorem missing_quote_counterexample :
    unitisation_process 0 1 (mkTable rows6c) nav6c = .error .invalidKind ∧
    (Except.error PyError.invalidKind : Except PyError Output)
      ≠ .error (.missingQuote "2026-01-02") := by decide

/-- C6 (amended): an input containing a transaction whose date is absent from
`navByDate` always fails, producing none of the three outputs; and the
failure is `MissingQuoteError` naming the offending date whenever the batch
passes kind validation and the transactions before it in canonical order
process successfully (otherwise the earlier defect's own error is raised
instead). -/
theorem missing_quote_aborts (opening_units opening_nav : ℚ) (rows : List Tx)
    (nav : String → Option ℚ) :
    ((∃ r ∈ rows, nav r.Date = none) →
      (unitisation_process opening_units opening_nav (mkTable rows) nav).isOk = false) ∧
    (∀ (pre post : List Tx) (r : Tx) (st : EngState),
      kindsValid (normalizeRows rows) = true →
      sortTx (normalizeRows rows) = pre ++ r :: post →
      runTx nav (initState opening_units) pre = .ok st →
      nav r.Date = none →
      unitisation_process opening_units opening_nav (mkTable rows) nav
        = .error (.missingQuote r.Date)) := by
  constructor
  · rintro ⟨r, hr, hnone⟩
    rw [unitisation_process_mkTable]
    cases hres : processTx opening_units opening_nav rows nav with
    | error e => rfl
    | ok out =>
      exfalso
      obtain ⟨st, hk, hrun, -⟩ := processTx_ok_elim hres
      have hr' : ({ r with TxType := normKind r.TxType } : Tx) ∈ normalizeRows rows :=
        List.mem_map_of_mem _ hr
      have hr'' : ({ r with TxType := normKind r.TxType } : Tx) ∈ sortTx (normalizeRows rows) :=
        (List.perm_insertionSort _ _).symm.subset hr'
      have hsome := runTx_dates hrun _ hr''
      rw [show ({ r with TxType := normKind r.TxType } : Tx).Date = r.Date from rfl,
        hnone] at hsome
      cases hsome
  · intro pre post r st hk hsplit hpre hnone
    rw [unitisation_process_mkTable]
    simp only [processTx]
    rw [if_pos hk, hsplit, runTx_append_ok hpre, runTx_cons_err (stepTx_missing hnone)]

/-- A single well-formed subscription on a date with no NAV quote. -/
def rows6w : List Tx := [⟨"2026-01-05", "A", "Subscription", 10⟩]

/-- An empty NAV table. -/
def nav6w : String → Option ℚ := fun _ => none

/-- Witness for C6 (amended): the single-transaction batch on an unquoted
date fails with `MissingQuoteError` naming that date. -/
theorem missing_quote_aborts_witness :
    unitisation_process 0 1 (mkTable rows6w) nav6w
      = .error (.missingQuote "2026-01-05") :=
  (missing_quote_aborts 0 1 rows6w nav6w).2 [] []
    ⟨"2026-01-05", "A", "subscription", 10⟩ (initState 0)
    (by decide) (by decide) rfl rfl

/-! ### C7: invalid kind, fail-fast for the whole batch -/

/-- C7: if any transaction's kind normalises to something other than
`subscription` or `redemption`, the whole batch fails with
`InvalidKindError` — regardless of the transaction's position, before the
loop touches any balance or total (the check of source lines 30-32 precedes
the sort and the loop). -/
theorem invalid_kind_fail_fast (opening_units opening_nav : ℚ) (rows : List Tx)
    (nav : String → Option ℚ)
    (h : ∃ r ∈ rows, normKind r.TxType ≠ "subscription" ∧
      normKind r.TxType ≠ "redemption") :
    unitisation_process opening_units opening_nav (mkTable rows) nav
      = .error .invalidKind := by
  rw [unitisation_process_mkTable]
  simp only [processTx]
  obtain ⟨r, hr, h1, h2⟩ := h
  have hk : ¬ kindsValid (normalizeRows rows) = true := by
    intro hk
    have hmem := kindsValid_iff.mp hk { r with TxType := normKind r.TxType }
      (List.mem_map_of_mem _ hr)
    rcases hmem with h' | h'
    · exact h1 h'
    · exact h2 h'
  rw [if_neg hk]

/-- A batch whose last transaction has the unrecognised kind `Purchase`. -/
def rows7 : List Tx :=
  [⟨"2026-01-02", "A", "Subscription", 5⟩,
   ⟨"2026-01-03", "B", "Purchase", 5⟩]

/-- Witness for C7: the `Purchase` transaction sits at the last position and
still fails the whole batch with `InvalidKindError`. -/
theorem invalid_kind_fail_fast_witness :
    unitisation_process 0 1 (mkTable rows7) navW = .error .invalidKind :=
  invalid_kind_fail_fast 0 1 rows7 navW
    ⟨⟨"2026-01-03", "B", "Purchase", 5⟩, by decide, by decide, by decide⟩

/-! ### C8: schema validation order -/

/-- A single well-formed row (the column flags of the table vary instead). -/
def rows8 : List Tx := [⟨"2026-01-02", "A", "Subscription", 5⟩]

/-- C8: the engine's required-column re-validation (source lines 24-27) fires
with a `SchemaError` naming the missing column for `Investor`, `Type` and
`Amount_Base` — but a missing `Date` column never reaches it: the
`tx["Date"]` normalisation on line 21 runs first and raises a pandas
`KeyError`, so the claimed `SchemaError` for a missing date field is
unreachable even though `Date` sits in the required set of line 24. -/
theorem schema_check_after_date_access :
    unitisation_process 0 1 ⟨false, true, true, true, rows8⟩ navW
      = .error (.keyError "Date") ∧
    unitisation_process 0 1 ⟨true, false, true, true, rows8⟩ navW
      = .error (.schemaError ["Investor"]) ∧
    unitisation_process 0 1 ⟨true, true, false, true, rows8⟩ navW
      = .error (.schemaError ["Type"]) ∧
    unitisation_process 0 1 ⟨true, true, true, false, rows8⟩ navW
      = .error (.schemaError ["Amount_Base"]) ∧
    (Except.error (PyError.keyError "Date") : Except PyError Output)
      ≠ .error (.schemaError ["Date"]) := by decide

/-! ### C9: no validation of the amount's sign -/

/-- A subscription with a negative amount. -/
def rows9 : List Tx := [⟨"2026-01-02", "A", "Subscription", -100⟩]

/-- The output of the engine on `rows9` from opening units 1000. -/
def out9 : Output :=
  { ledger :=
      [{ Date := "2026-01-02", Investor := "A", TxType := "Subscription",
         Amount_Base := -100, NAV_Per_Unit := 1, Units_Change := -100,
         Investor_Units_After := -100, Total_Units_After := 900 }]
    investor_summary := [("A", -100)]
    totals := { Opening_Units := 1000, Opening_NAV_Per_Unit := 1,
                Closing_Units := 900 } }

/-- C9: the engine never checks that an amount is positive: a subscription of
amount −100 at NAV 1 completes without error, decreasing the investor's
balance and the total by `|amount| / navPerUnit = 100` and leaving the
balance at −100, far below the −1e-12 tolerance (which only guards
redemptions). -/
theorem no_amount_validation :
    unitisation_process 1000 1 (mkTable rows9) navW = .ok out9 ∧
    out9.investor_summary = [("A", 0 - 100 / 1)] ∧
    ((-100 : ℚ) < -tol) ∧
    out9.totals.Closing_Units = 1000 - 100 / 1 := by decide

/-! ### C10: redemption by an unseen investor -/

theorem runTx_keys_sub {nav : String → Option ℚ} {st st' : EngState} {l : List Tx}
    (h : runTx nav st l = .ok st') :
    ∀ k ∈ st'.investor_units.map Prod.fst,
      k ∈ st.investor_units.map Prod.fst ∨ k ∈ l.map Tx.Investor := by
  induction l generalizing st with
  | nil =>
    injection h with h
    subst h
    intro k hk
    exact Or.inl hk
  | cons r t ih =>
    cases hstep : stepTx nav st r with
    | error e => rw [runTx_cons_err hstep] at h; cases h
    | ok st₁ =>
      rw [runTx_cons_ok hstep] at h
      obtain ⟨navpu, s, hst⟩ := stepTx_ok_applyDelta hstep
      subst hst
      intro k hk
      rcases ih h k hk with hk' | hk'
      · have hk'' : k ∈ (ensureUnits st.investor_units r.Investor).map Prod.fst := by
          have : (applyDelta st r navpu s).investor_units.map Prod.fst
              = (ensureUnits st.investor_units r.Investor).map Prod.fst := by
            unfold applyDelta
            simp only [setUnits_keys]
          rw [this] at hk'
          exact hk'
        cases hl : lookupUnits st.investor_units r.Investor with
        | none =>
          rw [ensureUnits_of_none hl] at hk''
          rw [List.map_append] at hk''
          rcases List.mem_append.mp hk'' with hm | hm
          · exact Or.inl hm
          · right
            have : k = r.Investor := by simpa using hm
            rw [this]
            exact List.mem_cons_self _ _
        | some v =>
          rw [ensureUnits_of_some hl] at hk''
          exact Or.inl hk''
      · exact Or.inr (List.mem_cons_of_mem _ hk')

/-- An unquoted-date subscription followed by a first-contact redemption. -/
def rows10c : List Tx :=
  [⟨"2026-01-01", "A", "Subscription", 5⟩,
   ⟨"2026-01-02", "B", "Redemption", 2⟩]

/-- The NAV table for `rows10c`: only the redemption's date is quoted. -/
def nav10c : String → Option ℚ := fun d => if d = "2026-01-02" then some 1 else none

/-- C10 counterexample: investor B's first-ever transaction is a redemption
of 2 units (far above the tolerance), yet the run fails with
`MissingQuoteError` for the earlier unquoted date — not with
`InsufficientBalanceError` for B as the claim asserts for every such input. -/
theorem unseen_redemption_counterexample :
    unitisation_process 0 1 (mkTable rows10c) nav10c
      = .error (.missingQuote "2026-01-01") ∧
    (Except.error (PyError.missingQuote "2026-01-01") : Except PyError Output)
      ≠ .error (.insufficientBalance "B" "2026-01-02" 0 (2 / 1)) := by decide

/-- C10 (amended): when the run reaches an investor's first transaction and
it is a redemption with `unitsDelta > 1e-12` — the batch passes kind
validation, every earlier transaction in canonical order processes
successfully, no earlier transaction names this investor, and the date's NAV
is present and positive — the run fails with `InsufficientBalanceError` for
that investor: the balance is lazily created at exactly `0.0` right before
the sufficiency check, which then cannot pass.  (An earlier defect instead
aborts the run with its own error — see the counterexample.) -/
theorem unseen_redemption_fails (opening_units opening_nav : ℚ) (rows : List Tx)
    (nav : String → Option ℚ) (pre post : List Tx) (r : Tx) (st : EngState)
    (navpu : ℚ)
    (hk : kindsValid (normalizeRows rows) = true)
    (hsplit : sortTx (normalizeRows rows) = pre ++ r :: post)
    (hfirst : ∀ p ∈ pre, ¬ p.Investor = r.Investor)
    (hred : r.TxType = "redemption")
    (hpre : runTx nav (initState opening_units) pre = .ok st)
    (hnav : nav r.Date = some navpu) (hnavpos : 0 < navpu)
    (hdelta : tol < r.Amount_Base / navpu) :
    unitisation_process opening_units opening_nav (mkTable rows) nav
      = .error (.insufficientBalance r.Investor r.Date 0 (r.Amount_Base / navpu)) := by
  have hnone : lookupUnits st.investor_units r.Investor = none := by
    rw [lookupUnits_eq_none]
    intro hmem
    rcases runTx_keys_sub hpre _ hmem with h' | h'
    · simp [initState] at h'
    · obtain ⟨p, hp, hpe⟩ := List.mem_map.mp h'
      exact hfirst p hp hpe
  have hbal : balOf (ensureUnits st.investor_units r.Investor) r.Investor = 0 := by
    rw [balOf_ensure]
    unfold balOf
    rw [hnone]
    rfl
  have hk' : ¬ r.TxType = "subscription" := by rw [hred]; decide
  have hchk : balOf (ensureUnits st.investor_units r.Investor) r.Investor + tol
      < r.Amount_Base / navpu := by
    rw [hbal]
    linarith
  rw [unitisation_process_mkTable]
  simp only [processTx]
  rw [if_pos hk, hsplit, runTx_append_ok hpre,
    runTx_cons_err (stepTx_red_fail hnav hnavpos hk' hchk), hbal]

/-- A batch whose only transaction is a redemption by a never-seen investor. -/
def rows10w : List Tx := [⟨"2026-01-05", "B", "Redemption", 5⟩]

/-- The NAV table quoting the single date of `rows10w`. -/
def nav10w : String → Option ℚ := fun d => if d = "2026-01-05" then some 1 else none

/-- Witness for C10 (amended): the first-contact redemption fails with
`InsufficientBalanceError` showing held units 0. -/
theorem unseen_redemption_fails_witness :
    unitisation_process 0 1 (mkTable rows10w) nav10w
      = .error (.insufficientBalance "B" "2026-01-05" 0 (5 / 1)) :=
  unseen_redemption_fails 0 1 rows10w nav10w [] []
    ⟨"2026-01-05", "B", "redemption", 5⟩ (initState 0) 1
    (by decide) (by decide) (by intro p hp; cases hp) rfl rfl (by decide)
    (by decide) (by decide)

end Unitisation
